import Mathlib

/-!
# ProdVersion: verification of the fixed 64-byte version-record codec

Shallow embedding of the C header implementing the current (tagged, 64-byte)
generation of the ProdVersion wire format: `prodVersionEncodeBytes`,
`prodVersionDecodeBytes` and `prodVersionToString`.

Bytes are modelled as natural numbers; every write that the C code performs
through a `char`/`uint8_t` cast carries an explicit `% 256`.  Buffers are
`List Nat`.  C strings stored in the record's fixed `char` arrays are
modelled as the list of their bytes up to (not including) the first NUL,
so a well-formed text value contains no zero byte.
-/

namespace ProdVer

/-- Constant `PRODVER_STRUCTVER`. -/
def PRODVER_STRUCTVER : Nat := 1

/-- Constant `PRODVER_PRODUCT_LEN`. -/
def PRODVER_PRODUCT_LEN : Nat := 24

/-- Constant `PRODVER_METADATA_LEN`. -/
def PRODVER_METADATA_LEN : Nat := 15

/-- Constant `PRODVER_COMMIT_LEN`. -/
def PRODVER_COMMIT_LEN : Nat := 7

/-- Constant `PRODVER_ENCODED_LEN`. -/
def PRODVER_ENCODED_LEN : Nat := 64

/-- Constant `VERSION_CHANNEL_RELEASE`, the character code of 'r' (0x72). -/
def VERSION_CHANNEL_RELEASE : Nat := 114

/-- The `prodVersion_t` struct.  Text fields hold the bytes of the stored C
string (everything before its first NUL); integer fields are the numeric
values of the `uint16_t`/`uint64_t` members, and `releaseChannel` the value
of the enum member. -/
structure prodVersion_t where
  product : List Nat
  major : Nat
  minor : Nat
  patch : Nat
  build : Nat
  releaseChannel : Nat
  metadata : List Nat
  commitHash : List Nat
  date : Nat
deriving Repr, DecidableEq

/-- Value of a `char` array viewed as a C string: bytes up to the first NUL.
`strncpy` reads its source this way. -/
def cstr (s : List Nat) : List Nat := s.takeWhile (fun b => b ≠ 0)

/-- Effect of `memset(dst, 0, w)` followed by `strncpy(dst, s, w)`: the first
`min w |s|` bytes are the leading characters of `s`, the rest of the
`w`-byte slot is zero. -/
def textSlot (w : Nat) (s : List Nat) : List Nat :=
  (cstr s).take w ++ List.replicate (w - ((cstr s).take w).length) 0

/-- Big-endian bytes of a `uint16_t` as the encoder writes them:
`(x >> 8) & 0xFF` then `x & 0xFF`. -/
def u16be (x : Nat) : List Nat := [x / 256 % 256, x % 256]

/-- Big-endian bytes of a `uint64_t` as the encoder writes them:
`(d >> 56) & 0xFF` down to `d & 0xFF`. -/
def u64be (d : Nat) : List Nat :=
  [d / 2 ^ 56 % 256, d / 2 ^ 48 % 256, d / 2 ^ 40 % 256, d / 2 ^ 32 % 256,
   d / 2 ^ 24 % 256, d / 2 ^ 16 % 256, d / 2 ^ 8 % 256, d % 256]

/-- The 64 bytes `prodVersionEncodeBytes` writes into `ret_buf` (the body of
the function after the length guard): structure-version byte, product slot,
four big-endian `uint16_t`s, channel byte, metadata slot, commit slot,
big-endian `uint64_t` date. -/
def prodVersionEncodeCore (v : prodVersion_t) : List Nat :=
  [PRODVER_STRUCTVER]
    ++ textSlot PRODVER_PRODUCT_LEN v.product
    ++ u16be v.major ++ u16be v.minor ++ u16be v.patch ++ u16be v.build
    ++ [v.releaseChannel % 256]
    ++ textSlot PRODVER_METADATA_LEN v.metadata
    ++ textSlot PRODVER_COMMIT_LEN v.commitHash
    ++ u64be v.date

/-- Function `prodVersionEncodeBytes`: fails (returns 0, writes nothing) when the
destination is shorter than 64 bytes, otherwise writes the 64 bytes and
returns them. -/
def prodVersionEncodeBytes (len : Nat) (v : prodVersion_t) : Option (List Nat) :=
  if len < PRODVER_ENCODED_LEN then none else some (prodVersionEncodeCore v)

/-- The `size_t` return value of `prodVersionEncodeBytes`: 0 on failure,
else the final `offset` (number of bytes written). -/
def prodVersionEncodeRet (len : Nat) (v : prodVersion_t) : Nat :=
  match prodVersionEncodeBytes len v with
  | none => 0
  | some bytes => bytes.length

/-- Value of `((uint8_t)buf[i] << 8) | (uint8_t)buf[i+1]` (the two byte ranges are
disjoint, so bitwise or is addition). -/
def readU16 (buf : List Nat) (i : Nat) : Nat :=
  buf.getD i 0 % 256 * 256 + buf.getD (i + 1) 0 % 256

/-- The eight `d |= (uint64_t)((uint8_t)buf[o++]) << k` accumulations
(disjoint byte ranges, so bitwise or is addition). -/
def readU64 (buf : List Nat) (i : Nat) : Nat :=
  buf.getD i 0 % 256 * 2 ^ 56 + buf.getD (i + 1) 0 % 256 * 2 ^ 48
    + buf.getD (i + 2) 0 % 256 * 2 ^ 40 + buf.getD (i + 3) 0 % 256 * 2 ^ 32
    + buf.getD (i + 4) 0 % 256 * 2 ^ 24 + buf.getD (i + 5) 0 % 256 * 2 ^ 16
    + buf.getD (i + 6) 0 % 256 * 2 ^ 8 + buf.getD (i + 7) 0 % 256

/-- Function `prodVersionDecodeBytes`: fails when the buffer is shorter than 64 bytes
or the structure-version byte is not 1; otherwise fills every field of the
output struct from the first 64 bytes.  Each text field is `memcpy`ed into a
NUL-terminated array, so its string value is the slot's bytes up to the
first zero. -/
def prodVersionDecodeBytes (buf : List Nat) : Option prodVersion_t :=
  if buf.length < PRODVER_ENCODED_LEN then none
  else if buf.getD 0 0 % 256 ≠ PRODVER_STRUCTVER then none
  else some
    { product := ((buf.drop 1).take PRODVER_PRODUCT_LEN).takeWhile (fun b => b ≠ 0)
      major := readU16 buf 25
      minor := readU16 buf 27
      patch := readU16 buf 29
      build := readU16 buf 31
      releaseChannel := buf.getD 33 0
      metadata := ((buf.drop 34).take PRODVER_METADATA_LEN).takeWhile (fun b => b ≠ 0)
      commitHash := ((buf.drop 49).take PRODVER_COMMIT_LEN).takeWhile (fun b => b ≠ 0)
      date := readU64 buf 56 }

/-- Decimal digits of an unsigned value as `%u` prints it, as bytes. -/
def decBytes (n : Nat) : List Nat := (Nat.toDigits 10 n).map Char.toNat

/-- The full text `snprintf` in `prodVersionToString` would produce with an
unbounded buffer, as bytes.  The format string is
`"%s %u.%u.%u%c%s%s%s%s%s%c"` with arguments: product (or `""` when its
first byte is NUL — the same bytes either way), major, minor, patch, the
channel cast to `char`, `"-"` when metadata is non-empty, metadata, and,
when the channel is not `VERSION_CHANNEL_RELEASE`, `" ("`, the commit hash
and `")"`; the final `%c` consumes `version->build` cast to `char`. -/
def prodVersionRendered (v : prodVersion_t) : List Nat :=
  cstr v.product ++ [32]
    ++ decBytes v.major ++ [46] ++ decBytes v.minor ++ [46] ++ decBytes v.patch
    ++ [v.releaseChannel % 256]
    ++ (if cstr v.metadata = [] then [] else [45]) ++ cstr v.metadata
    ++ (if v.releaseChannel = VERSION_CHANNEL_RELEASE then []
        else [32, 40] ++ cstr v.commitHash ++ [41])
    ++ [v.build % 256]

/-- Function `prodVersionToString`: returns the string written into `ret_str` (as a
C string: what a reader sees up to the terminating NUL) and the `size_t`
return value.  A buffer of length 0 is left untouched (empty output); a
buffer of length 1 gets only the terminator; otherwise `snprintf` runs and,
when its result `written` does not fit (`written >= buf_len`), the function
empties the buffer and returns 0. -/
def prodVersionToString (v : prodVersion_t) (buf_len : Nat) : List Nat × Nat :=
  if buf_len = 0 then ([], 0)
  else if buf_len < 2 then ([], 0)
  else
    let written := (prodVersionRendered v).length
    if written ≥ buf_len then ([], 0)
    else (prodVersionRendered v, written)

/-- Bytes of a string literal, for stating formatter results. -/
def strBytes (s : String) : List Nat := s.data.map Char.toNat

/-! ## Helper lemmas -/

@[simp] theorem textSlot_length (w : Nat) (s : List Nat) :
    (textSlot w s).length = w := by
  unfold textSlot
  rw [List.length_append, List.length_replicate]
  have : ((cstr s).take w).length ≤ w := by
    rw [List.length_take]
    omega
  omega

theorem encodeCore_length (v : prodVersion_t) :
    (prodVersionEncodeCore v).length = 64 := by
  simp [prodVersionEncodeCore, u16be, u64be, PRODVER_PRODUCT_LEN,
    PRODVER_METADATA_LEN, PRODVER_COMMIT_LEN]

theorem cstr_eq_self {s : List Nat} (h : ∀ b ∈ s, b ≠ 0) : cstr s = s := by
  unfold cstr
  rw [List.takeWhile_eq_self_iff]
  intro x hx
  simpa using h x hx

theorem takeWhile_append_replicate_zero (l : List Nat) (n : Nat)
    (h : ∀ b ∈ l, b ≠ 0) :
    (l ++ List.replicate n 0).takeWhile (fun b => b ≠ 0) = l := by
  induction l with
  | nil =>
    cases n <;> simp
  | cons a t ih =>
    have ha : a ≠ 0 := h a (by simp)
    have ht : ∀ b ∈ t, b ≠ 0 := fun b hb => h b (by simp [hb])
    have ih' := ih ht
    simp only [ne_eq, decide_not] at ih' ⊢
    simp [List.takeWhile_cons, ha, ih']

theorem textSlot_of_fits {w : Nat} {s : List Nat} (h0 : ∀ b ∈ s, b ≠ 0)
    (hw : s.length ≤ w) :
    textSlot w s = s ++ List.replicate (w - s.length) 0 := by
  rw [textSlot, cstr_eq_self h0, List.take_of_length_le hw]

theorem takeWhile_textSlot {w : Nat} {s : List Nat} (h0 : ∀ b ∈ s, b ≠ 0) :
    (textSlot w s).takeWhile (fun b => b ≠ 0) = s.take w := by
  rw [textSlot, cstr_eq_self h0]
  exact takeWhile_append_replicate_zero _ _ fun b hb => h0 b (List.mem_of_mem_take hb)

theorem u64_reassemble (d : Nat) (h : d < 18446744073709551616) :
    d / 72057594037927936 % 256 % 256 * 72057594037927936
      + d / 281474976710656 % 256 % 256 * 281474976710656
      + d / 1099511627776 % 256 % 256 * 1099511627776
      + d / 4294967296 % 256 % 256 * 4294967296
      + d / 16777216 % 256 % 256 * 16777216
      + d / 65536 % 256 % 256 * 65536
      + d / 256 % 256 % 256 * 256 + d % 256 % 256 = d := by
  simp only [Nat.mod_mod_of_dvd _ (dvd_refl 256)]
  omega

theorem encodeCore_prodSlice (v : prodVersion_t) :
    ((prodVersionEncodeCore v).drop 1).take 24 = textSlot 24 v.product := by
  simp [prodVersionEncodeCore, u16be, u64be, PRODVER_STRUCTVER, PRODVER_PRODUCT_LEN,
    PRODVER_METADATA_LEN, PRODVER_COMMIT_LEN,
    List.drop_append_eq_append_drop, List.take_append_eq_append_take,
    List.take_of_length_le]

theorem encodeCore_metaSlice (v : prodVersion_t) :
    ((prodVersionEncodeCore v).drop 34).take 15 = textSlot 15 v.metadata := by
  simp [prodVersionEncodeCore, u16be, u64be, PRODVER_STRUCTVER, PRODVER_PRODUCT_LEN,
    PRODVER_METADATA_LEN, PRODVER_COMMIT_LEN,
    List.drop_append_eq_append_drop, List.take_append_eq_append_take,
    List.take_of_length_le, List.drop_eq_nil_of_le]

theorem encodeCore_commitSlice (v : prodVersion_t) :
    ((prodVersionEncodeCore v).drop 49).take 7 = textSlot 7 v.commitHash := by
  simp [prodVersionEncodeCore, u16be, u64be, PRODVER_STRUCTVER, PRODVER_PRODUCT_LEN,
    PRODVER_METADATA_LEN, PRODVER_COMMIT_LEN,
    List.drop_append_eq_append_drop, List.take_append_eq_append_take,
    List.take_of_length_le, List.drop_eq_nil_of_le]

theorem encodeCore_bytes (v : prodVersion_t) :
    (prodVersionEncodeCore v).getD 0 0 = 1 ∧
    (prodVersionEncodeCore v).getD 25 0 = v.major / 256 % 256 ∧
    (prodVersionEncodeCore v).getD 26 0 = v.major % 256 ∧
    (prodVersionEncodeCore v).getD 27 0 = v.minor / 256 % 256 ∧
    (prodVersionEncodeCore v).getD 28 0 = v.minor % 256 ∧
    (prodVersionEncodeCore v).getD 29 0 = v.patch / 256 % 256 ∧
    (prodVersionEncodeCore v).getD 30 0 = v.patch % 256 ∧
    (prodVersionEncodeCore v).getD 31 0 = v.build / 256 % 256 ∧
    (prodVersionEncodeCore v).getD 32 0 = v.build % 256 ∧
    (prodVersionEncodeCore v).getD 33 0 = v.releaseChannel % 256 ∧
    (prodVersionEncodeCore v).getD 56 0 = v.date / 2 ^ 56 % 256 ∧
    (prodVersionEncodeCore v).getD 57 0 = v.date / 2 ^ 48 % 256 ∧
    (prodVersionEncodeCore v).getD 58 0 = v.date / 2 ^ 40 % 256 ∧
    (prodVersionEncodeCore v).getD 59 0 = v.date / 2 ^ 32 % 256 ∧
    (prodVersionEncodeCore v).getD 60 0 = v.date / 2 ^ 24 % 256 ∧
    (prodVersionEncodeCore v).getD 61 0 = v.date / 2 ^ 16 % 256 ∧
    (prodVersionEncodeCore v).getD 62 0 = v.date / 2 ^ 8 % 256 ∧
    (prodVersionEncodeCore v).getD 63 0 = v.date % 256 := by
  refine ⟨?_, ?_, ?_, ?_, ?_, ?_, ?_, ?_, ?_, ?_, ?_, ?_, ?_, ?_, ?_, ?_, ?_, ?_⟩ <;>
    simp [prodVersionEncodeCore, u16be, u64be, textSlot_length, PRODVER_STRUCTVER,
      PRODVER_PRODUCT_LEN, PRODVER_METADATA_LEN, PRODVER_COMMIT_LEN,
      List.getD_append, List.getD_append_right, List.getElem_append_right,
      List.getElem_append]

/-- Decoding the encoder's 64-byte output recovers the record with each text
field truncated to its wire width (fields already within their widths come
back unchanged). -/
theorem decode_encodeCore (v : prodVersion_t)
    (hp : ∀ b ∈ v.product, b ≠ 0) (hm : ∀ b ∈ v.metadata, b ≠ 0)
    (hc : ∀ b ∈ v.commitHash, b ≠ 0)
    (hmaj : v.major < 2 ^ 16) (hmin : v.minor < 2 ^ 16)
    (hpat : v.patch < 2 ^ 16) (hbld : v.build < 2 ^ 16)
    (hch : v.releaseChannel < 256) (hd : v.date < 2 ^ 64) :
    prodVersionDecodeBytes (prodVersionEncodeCore v) =
      some { v with
        product := v.product.take 24
        metadata := v.metadata.take 15
        commitHash := v.commitHash.take 7 } := by
  obtain ⟨h0, h25, h26, h27, h28, h29, h30, h31, h32, h33,
    h56, h57, h58, h59, h60, h61, h62, h63⟩ := encodeCore_bytes v
  have hlen := encodeCore_length v
  have htag : ¬((prodVersionEncodeCore v).getD 0 0 % 256 ≠ PRODVER_STRUCTVER) := by
    rw [h0]
    decide
  unfold prodVersionDecodeBytes
  rw [hlen]
  rw [if_neg (by decide)]
  rw [if_neg htag]
  congr 1
  refine prodVersion_t.mk.injEq .. |>.mpr ⟨?_, ?_, ?_, ?_, ?_, ?_, ?_, ?_, ?_⟩
  · rw [show PRODVER_PRODUCT_LEN = 24 from rfl, encodeCore_prodSlice,
      takeWhile_textSlot hp]
  · rw [readU16, h25, h26]
    omega
  · rw [readU16, h27, h28]
    omega
  · rw [readU16, h29, h30]
    omega
  · rw [readU16, h31, h32]
    omega
  · rw [h33]
    exact Nat.mod_eq_of_lt hch
  · rw [show PRODVER_METADATA_LEN = 15 from rfl, encodeCore_metaSlice,
      takeWhile_textSlot hm]
  · rw [show PRODVER_COMMIT_LEN = 7 from rfl, encodeCore_commitSlice,
      takeWhile_textSlot hc]
  · rw [readU64]
    rw [h56, h57, h58, h59, h60, h61, h62, h63]
    have h64 : v.date < 18446744073709551616 := by
      calc v.date < 2 ^ 64 := hd
        _ = 18446744073709551616 := by norm_num
    rw [show (2 : Nat) ^ 56 = 72057594037927936 by norm_num,
      show (2 : Nat) ^ 48 = 281474976710656 by norm_num,
      show (2 : Nat) ^ 40 = 1099511627776 by norm_num,
      show (2 : Nat) ^ 32 = 4294967296 by norm_num,
      show (2 : Nat) ^ 24 = 16777216 by norm_num,
      show (2 : Nat) ^ 16 = 65536 by norm_num,
      show (2 : Nat) ^ 8 = 256 by norm_num]
    exact u64_reassemble v.date h64

/-! ## Sample records and buffers for concrete instantiations -/

/-- The spec's example record: product "ACME", version 1.2.3, build 7,
release channel, empty metadata, commit "abc1234", timestamp 1700000000. -/
def acmeRelease : prodVersion_t :=
  { product := [65, 67, 77, 69], major := 1, minor := 2, patch := 3, build := 7,
    releaseChannel := 114, metadata := [], commitHash := [97, 98, 99, 49, 50, 51, 52],
    date := 1700000000 }

/-- The same record on the beta channel (`'b'` = 98). -/
def acmeBeta : prodVersion_t := { acmeRelease with releaseChannel := 98 }

/-- The example record with `major = 0x0102`, for the endianness check. -/
def acme258 : prodVersion_t := { acmeRelease with major := 258 }

/-- A 64-byte buffer with a valid tag and the unrecognized channel byte
`'z'` (122) at offset 33. -/
def chanBuf : List Nat :=
  1 :: (List.replicate 32 0 ++ 122 :: List.replicate 30 0)

/-! ## Claims -/

/-- C1: for every record whose text fields are within their wire widths
(product ≤ 24 bytes, metadata ≤ 15, commit ≤ 7, none containing a NUL) and
whose numeric fields are within their C types (`uint16_t` versions and
build, single-byte channel, `uint64_t` timestamp), decoding the encoding
yields the original record, field by field. -/
theorem c1_roundtrip (v : prodVersion_t)
    (hp_len : v.product.length ≤ 24) (hp : ∀ b ∈ v.product, b ≠ 0)
    (hm_len : v.metadata.length ≤ 15) (hm : ∀ b ∈ v.metadata, b ≠ 0)
    (hc_len : v.commitHash.length ≤ 7) (hc : ∀ b ∈ v.commitHash, b ≠ 0)
    (hmaj : v.major < 2 ^ 16) (hmin : v.minor < 2 ^ 16)
    (hpat : v.patch < 2 ^ 16) (hbld : v.build < 2 ^ 16)
    (hch : v.releaseChannel < 256) (hd : v.date < 2 ^ 64) :
    (prodVersionEncodeBytes 64 v).bind prodVersionDecodeBytes = some v := by
  unfold prodVersionEncodeBytes
  rw [if_neg (by decide), Option.some_bind]
  rw [decode_encodeCore v hp hm hc hmaj hmin hpat hbld hch hd]
  rw [List.take_of_length_le hp_len, List.take_of_length_le hm_len,
    List.take_of_length_le hc_len]

theorem c1_roundtrip_witness :
    (prodVersionEncodeBytes 64 acmeRelease).bind prodVersionDecodeBytes = some acmeRelease :=
  c1_roundtrip acmeRelease (by decide) (by decide) (by decide) (by decide)
    (by decide) (by decide) (by decide) (by decide) (by decide) (by decide)
    (by decide) (by decide)

/-- C2: the encoder writes the layout of spec section 6 exactly: the
format-version tag 1 at offset 0, each 16-bit field most-significant byte
first at its declared offset (major at 25-26, minor at 27-28, patch at
29-30, build at 31-32), and the 64-bit timestamp big-endian at offsets
56-63. -/
theorem c2_layout (v : prodVersion_t)
    (hmaj : v.major < 2 ^ 16) (hmin : v.minor < 2 ^ 16)
    (hpat : v.patch < 2 ^ 16) (hbld : v.build < 2 ^ 16) (hd : v.date < 2 ^ 64) :
    (prodVersionEncodeCore v).getD 0 0 = 1 ∧
    (prodVersionEncodeCore v).getD 25 0 = v.major / 256 ∧
    (prodVersionEncodeCore v).getD 26 0 = v.major % 256 ∧
    (prodVersionEncodeCore v).getD 27 0 = v.minor / 256 ∧
    (prodVersionEncodeCore v).getD 28 0 = v.minor % 256 ∧
    (prodVersionEncodeCore v).getD 29 0 = v.patch / 256 ∧
    (prodVersionEncodeCore v).getD 30 0 = v.patch % 256 ∧
    (prodVersionEncodeCore v).getD 31 0 = v.build / 256 ∧
    (prodVersionEncodeCore v).getD 32 0 = v.build % 256 ∧
    (prodVersionEncodeCore v).getD 56 0 = v.date / 2 ^ 56 ∧
    (prodVersionEncodeCore v).getD 57 0 = v.date / 2 ^ 48 % 256 ∧
    (prodVersionEncodeCore v).getD 58 0 = v.date / 2 ^ 40 % 256 ∧
    (prodVersionEncodeCore v).getD 59 0 = v.date / 2 ^ 32 % 256 ∧
    (prodVersionEncodeCore v).getD 60 0 = v.date / 2 ^ 24 % 256 ∧
    (prodVersionEncodeCore v).getD 61 0 = v.date / 2 ^ 16 % 256 ∧
    (prodVersionEncodeCore v).getD 62 0 = v.date / 2 ^ 8 % 256 ∧
    (prodVersionEncodeCore v).getD 63 0 = v.date % 256 := by
  obtain ⟨h0, h25, h26, h27, h28, h29, h30, h31, h32, _h33,
    h56, h57, h58, h59, h60, h61, h62, h63⟩ := encodeCore_bytes v
  refine ⟨h0, ?_, h26, ?_, h28, ?_, h30, ?_, h32, ?_,
    h57, h58, h59, h60, h61, h62, h63⟩
  · rw [h25]
    exact Nat.mod_eq_of_lt (by omega)
  · rw [h27]
    exact Nat.mod_eq_of_lt (by omega)
  · rw [h29]
    exact Nat.mod_eq_of_lt (by omega)
  · rw [h31]
    exact Nat.mod_eq_of_lt (by omega)
  · rw [h56]
    refine Nat.mod_eq_of_lt ?_
    have : (2 : Nat) ^ 64 = 2 ^ 56 * 256 := by norm_num
    exact Nat.div_lt_of_lt_mul (by omega)

theorem c2_layout_witness :
    (prodVersionEncodeCore acme258).getD 0 0 = 1 ∧
    (prodVersionEncodeCore acme258).getD 25 0 = 1 ∧
    (prodVersionEncodeCore acme258).getD 26 0 = 2 := by
  obtain ⟨h0, h25, h26, -⟩ :=
    c2_layout acme258 (by decide) (by decide) (by decide) (by decide) (by decide)
  refine ⟨h0, ?_, ?_⟩
  · rw [h25]
    decide
  · rw [h26]
    decide

/-- C3: a 64-byte buffer (of genuine bytes) whose first byte is not the
supported tag 1 is rejected: decode returns no record at all, so the output
is never partially populated, whatever the remaining 63 bytes hold. -/
theorem c3_bad_tag (buf : List Nat) (hlen : buf.length = 64)
    (hb : ∀ b ∈ buf, b < 256) (h1 : buf.getD 0 0 ≠ 1) :
    prodVersionDecodeBytes buf = none := by
  have hmem : buf.getD 0 0 ∈ buf := by
    rw [List.getD_eq_getElem _ _ (by omega)]
    exact List.getElem_mem _
  have hlt : buf.getD 0 0 < 256 := hb _ hmem
  unfold prodVersionDecodeBytes
  rw [hlen, if_neg (by decide), if_pos]
  rw [Nat.mod_eq_of_lt hlt]
  exact h1

theorem c3_bad_tag_witness :
    prodVersionDecodeBytes (List.replicate 64 0) = none :=
  c3_bad_tag (List.replicate 64 0) (by decide) (by decide) (by decide)

/-- C4 counterexample: a 65-byte buffer whose first byte is the valid tag
decodes successfully, so "decode fails on every buffer whose length is not
exactly 64 — whether shorter or longer" is false for this decoder. -/
theorem c4_counterexample :
    (1 :: List.replicate 64 0).length ≠ 64 ∧
    prodVersionDecodeBytes (1 :: List.replicate 64 0) ≠ none := by
  constructor
  · decide
  · decide

/-- C4 (amended): decode fails on every buffer shorter than 64 bytes; a
buffer of length 64 or more passes the length check, and then succeeds
exactly when its first byte is the supported tag (any extra trailing bytes
are ignored). -/
theorem c4_length_check (buf : List Nat) :
    (buf.length < 64 → prodVersionDecodeBytes buf = none) ∧
    (64 ≤ buf.length →
      ((prodVersionDecodeBytes buf).isSome ↔ buf.getD 0 0 % 256 = 1)) := by
  constructor
  · intro h
    unfold prodVersionDecodeBytes PRODVER_ENCODED_LEN
    rw [if_pos h]
  · intro h
    unfold prodVersionDecodeBytes PRODVER_ENCODED_LEN PRODVER_STRUCTVER
    rw [if_neg (by omega)]
    by_cases htag : buf.getD 0 0 % 256 = 1
    · have hc : ¬(buf.getD 0 0 % 256 ≠ 1) := by
        rw [htag]
        decide
      rw [if_neg hc]
      exact iff_of_true (by simp) htag
    · rw [if_pos htag]
      exact iff_of_false (by simp) htag

theorem c4_length_check_witness :
    prodVersionDecodeBytes (List.replicate 63 0) = none ∧
    ((prodVersionDecodeBytes (1 :: List.replicate 63 0)).isSome ↔
      (1 :: List.replicate 63 0).getD 0 0 % 256 = 1) :=
  ⟨(c4_length_check (List.replicate 63 0)).1 (by decide),
   (c4_length_check (1 :: List.replicate 63 0)).2 (by decide)⟩

/-- C5: encoding a record whose product, metadata or commit text exceeds
its wire width (24, 15, 7) and then decoding yields exactly the leading
24/15/7 characters of that field — the tail is discarded and no padding
byte becomes visible. -/
theorem c5_truncation (v : prodVersion_t)
    (hp : ∀ b ∈ v.product, b ≠ 0) (hm : ∀ b ∈ v.metadata, b ≠ 0)
    (hc : ∀ b ∈ v.commitHash, b ≠ 0)
    (hmaj : v.major < 2 ^ 16) (hmin : v.minor < 2 ^ 16)
    (hpat : v.patch < 2 ^ 16) (hbld : v.build < 2 ^ 16)
    (hch : v.releaseChannel < 256) (hd : v.date < 2 ^ 64) :
    (prodVersionEncodeBytes 64 v).bind prodVersionDecodeBytes =
      some { v with
        product := v.product.take 24
        metadata := v.metadata.take 15
        commitHash := v.commitHash.take 7 } := by
  unfold prodVersionEncodeBytes
  rw [if_neg (by decide), Option.some_bind]
  exact decode_encodeCore v hp hm hc hmaj hmin hpat hbld hch hd

theorem c5_truncation_witness :
    (prodVersionEncodeBytes 64
        { acmeRelease with
          product := List.replicate 30 65
          metadata := List.replicate 20 66
          commitHash := List.replicate 9 67 }).bind prodVersionDecodeBytes =
      some { acmeRelease with
        product := List.replicate 24 65
        metadata := List.replicate 15 66
        commitHash := List.replicate 7 67 } := by
  have h := c5_truncation
    { acmeRelease with
      product := List.replicate 30 65
      metadata := List.replicate 20 66
      commitHash := List.replicate 9 67 }
    (by decide) (by decide) (by decide) (by decide) (by decide) (by decide)
    (by decide) (by decide) (by decide)
  rw [h]
  rfl

/-- C6: every 64-byte buffer (of genuine bytes) with a valid tag decodes
successfully whatever the channel byte at offset 33 is — unknown tag values
are preserved in the decoded record rather than rejected — and re-encoding
the decoded record writes the identical channel byte back at offset 33. -/
theorem c6_channel_preserved (buf : List Nat) (hlen : buf.length = 64)
    (hb : ∀ b ∈ buf, b < 256) (h1 : buf.getD 0 0 = 1) :
    ∃ r, prodVersionDecodeBytes buf = some r ∧
      r.releaseChannel = buf.getD 33 0 ∧
      (prodVersionEncodeCore r).getD 33 0 = buf.getD 33 0 := by
  have hch : buf.getD 33 0 < 256 := by
    refine hb _ ?_
    rw [List.getD_eq_getElem _ _ (by omega)]
    exact List.getElem_mem _
  refine
    ⟨{ product := ((buf.drop 1).take PRODVER_PRODUCT_LEN).takeWhile (fun b => b ≠ 0)
       major := readU16 buf 25
       minor := readU16 buf 27
       patch := readU16 buf 29
       build := readU16 buf 31
       releaseChannel := buf.getD 33 0
       metadata := ((buf.drop 34).take PRODVER_METADATA_LEN).takeWhile (fun b => b ≠ 0)
       commitHash := ((buf.drop 49).take PRODVER_COMMIT_LEN).takeWhile (fun b => b ≠ 0)
       date := readU64 buf 56 }, ?_, rfl, ?_⟩
  · unfold prodVersionDecodeBytes
    rw [hlen, if_neg (by decide)]
    rw [if_neg (by rw [h1]; decide)]
  · obtain ⟨-, -, -, -, -, -, -, -, -, h33, -⟩ := encodeCore_bytes
      { product := ((buf.drop 1).take PRODVER_PRODUCT_LEN).takeWhile (fun b => b ≠ 0)
        major := readU16 buf 25
        minor := readU16 buf 27
        patch := readU16 buf 29
        build := readU16 buf 31
        releaseChannel := buf.getD 33 0
        metadata := ((buf.drop 34).take PRODVER_METADATA_LEN).takeWhile (fun b => b ≠ 0)
        commitHash := ((buf.drop 49).take PRODVER_COMMIT_LEN).takeWhile (fun b => b ≠ 0)
        date := readU64 buf 56 }
    rw [h33]
    exact Nat.mod_eq_of_lt hch

theorem c6_channel_preserved_witness :
    ∃ r, prodVersionDecodeBytes chanBuf = some r ∧
      r.releaseChannel = chanBuf.getD 33 0 ∧
      (prodVersionEncodeCore r).getD 33 0 = chanBuf.getD 33 0 :=
  c6_channel_preserved chanBuf (by decide) (by decide) (by decide)

/-- C7: for every record, encoding into a destination of length at least 64
succeeds and writes exactly 64 bytes (the returned count is 64), whatever
the field contents; encoding into a destination shorter than 64 bytes is
the only failure mode, returning 0 with nothing written. -/
theorem c7_encode_total (v : prodVersion_t) (len : Nat) :
    (64 ≤ len →
      prodVersionEncodeBytes len v = some (prodVersionEncodeCore v) ∧
      (prodVersionEncodeCore v).length = 64 ∧
      prodVersionEncodeRet len v = 64) ∧
    (len < 64 →
      prodVersionEncodeBytes len v = none ∧ prodVersionEncodeRet len v = 0) := by
  constructor
  · intro h
    have henc : prodVersionEncodeBytes len v = some (prodVersionEncodeCore v) := by
      unfold prodVersionEncodeBytes PRODVER_ENCODED_LEN
      rw [if_neg (by omega)]
    refine ⟨henc, encodeCore_length v, ?_⟩
    rw [prodVersionEncodeRet, henc]
    exact encodeCore_length v
  · intro h
    have henc : prodVersionEncodeBytes len v = none := by
      unfold prodVersionEncodeBytes PRODVER_ENCODED_LEN
      rw [if_pos h]
    refine ⟨henc, ?_⟩
    rw [prodVersionEncodeRet, henc]

theorem c7_encode_total_witness :
    (prodVersionEncodeBytes 64 acmeRelease = some (prodVersionEncodeCore acmeRelease) ∧
      (prodVersionEncodeCore acmeRelease).length = 64 ∧
      prodVersionEncodeRet 64 acmeRelease = 64) ∧
    (prodVersionEncodeBytes 63 acmeRelease = none ∧
      prodVersionEncodeRet 63 acmeRelease = 0) :=
  ⟨(c7_encode_total acmeRelease 64).1 (by decide),
   (c7_encode_total acmeRelease 63).2 (by decide)⟩

/-- C8: the formatter never writes past the caller-supplied buffer length —
the string visible in the output is always strictly shorter than the buffer
(leaving room for the terminator) or empty — and whenever the fully
rendered text would not fit, it produces the empty string and returns 0
rather than truncated text. -/
theorem c8_formatter_bound (v : prodVersion_t) (buf_len : Nat) :
    (prodVersionToString v buf_len).1.length ≤ buf_len ∧
    (buf_len ≤ (prodVersionRendered v).length →
      prodVersionToString v buf_len = ([], 0)) := by
  unfold prodVersionToString
  by_cases h0 : buf_len = 0
  · rw [if_pos h0]
    exact ⟨Nat.zero_le _, fun _ => rfl⟩
  · rw [if_neg h0]
    by_cases h1 : buf_len < 2
    · rw [if_pos h1]
      exact ⟨Nat.zero_le _, fun _ => rfl⟩
    · rw [if_neg h1]
      by_cases h2 : (prodVersionRendered v).length ≥ buf_len
      · rw [if_pos h2]
        exact ⟨Nat.zero_le _, fun _ => rfl⟩
      · rw [if_neg h2]
        refine ⟨?_, fun hfit => absurd hfit h2⟩
        show (prodVersionRendered v).length ≤ buf_len
        omega

theorem c8_formatter_bound_witness :
    (prodVersionToString acmeRelease 5).1.length ≤ 5 ∧
    prodVersionToString acmeRelease 5 = ([], 0) :=
  ⟨(c8_formatter_bound acmeRelease 5).1,
   (c8_formatter_bound acmeRelease 5).2 (by decide)⟩

/-- C9: what the formatter actually produces at the spec's example records,
with a 64-byte output buffer.  For the release-channel record the output is
the bytes of `"ACME 1.2.3r"` followed by the extra byte 0x07 — the trailing
`%c` conversion in the format string prints `version->build` as a raw
character — and for the beta record the bytes of `"ACME 1.2.3b (abc1234)"`
followed by the same extra byte; neither equals the claimed string. -/
theorem c9_formatter_output :
    prodVersionToString acmeRelease 64 = (strBytes "ACME 1.2.3r" ++ [7], 12) ∧
    prodVersionToString acmeBeta 64 = (strBytes "ACME 1.2.3b (abc1234)" ++ [7], 22) ∧
    strBytes "ACME 1.2.3r" ++ [7] ≠ strBytes "ACME 1.2.3r" ∧
    strBytes "ACME 1.2.3b (abc1234)" ++ [7] ≠ strBytes "ACME 1.2.3b (abc1234)" := by
  refine ⟨?_, ?_, ?_, ?_⟩ <;> decide

/-! ## Canonical buffers (for the encode-after-decode direction) -/

/-- A text-field slot is canonical when every byte after its first zero
byte is also zero (i.e. the slot is text followed only by NUL padding). -/
def canonicalSlot (l : List Nat) : Prop :=
  ∀ b ∈ l.dropWhile (fun b => b ≠ 0), b = 0

instance (l : List Nat) : Decidable (canonicalSlot l) := by
  unfold canonicalSlot
  infer_instance

theorem textSlot_of_canonical {w : Nat} {slice : List Nat}
    (hl : slice.length = w) (hcanon : canonicalSlot slice) :
    textSlot w (slice.takeWhile (fun b => b ≠ 0)) = slice := by
  have hmem : ∀ b ∈ slice.takeWhile (fun b => b ≠ 0), b ≠ 0 := by
    intro b hb
    simpa using List.mem_takeWhile_imp hb
  have hcs := cstr_eq_self hmem
  have hlen_s : (slice.takeWhile (fun b => b ≠ 0)).length ≤ w := by
    rw [← hl]
    exact (List.takeWhile_sublist _).length_le
  rw [textSlot, hcs, List.take_of_length_le hlen_s]
  have hsplit := List.takeWhile_append_dropWhile (fun b => decide (b ≠ 0)) slice
  have hdlen : (slice.dropWhile (fun b => b ≠ 0)).length
      = w - (slice.takeWhile (fun b => b ≠ 0)).length := by
    have hlen2 := congrArg List.length hsplit
    rw [List.length_append] at hlen2
    omega
  have hrep : slice.dropWhile (fun b => b ≠ 0)
      = List.replicate (w - (slice.takeWhile (fun b => b ≠ 0)).length) 0 :=
    List.eq_replicate_iff.mpr ⟨hdlen, hcanon⟩
  rw [← hrep]
  exact hsplit

theorem drop_take_eq_map (l : List Nat) (i k : Nat) (h : i + k ≤ l.length) :
    (l.drop i).take k = (List.range k).map (fun j => l.getD (i + j) 0) := by
  apply List.ext_getElem
  · simp
    omega
  · intro n h1 h2
    have hn : n < k := by
      simp at h2
      exact h2
    have hin : i + n < l.length := by omega
    simp only [List.getElem_take, List.getElem_drop, List.getElem_map,
      List.getElem_range]
    rw [List.getD_eq_getElem _ _ hin]

theorem u16be_readU16 (buf : List Nat) (i : Nat)
    (h1 : buf.getD i 0 < 256) (h2 : buf.getD (i + 1) 0 < 256) :
    u16be (readU16 buf i) = [buf.getD i 0, buf.getD (i + 1) 0] := by
  unfold u16be readU16
  have e1 : (buf.getD i 0 % 256 * 256 + buf.getD (i + 1) 0 % 256) / 256 % 256
      = buf.getD i 0 := by omega
  have e2 : (buf.getD i 0 % 256 * 256 + buf.getD (i + 1) 0 % 256) % 256
      = buf.getD (i + 1) 0 := by omega
  rw [e1, e2]

theorem u64be_readU64 (buf : List Nat) (i : Nat)
    (h0 : buf.getD i 0 < 256) (h1 : buf.getD (i + 1) 0 < 256)
    (h2 : buf.getD (i + 2) 0 < 256) (h3 : buf.getD (i + 3) 0 < 256)
    (h4 : buf.getD (i + 4) 0 < 256) (h5 : buf.getD (i + 5) 0 < 256)
    (h6 : buf.getD (i + 6) 0 < 256) (h7 : buf.getD (i + 7) 0 < 256) :
    u64be (readU64 buf i) =
      [buf.getD i 0, buf.getD (i + 1) 0, buf.getD (i + 2) 0, buf.getD (i + 3) 0,
       buf.getD (i + 4) 0, buf.getD (i + 5) 0, buf.getD (i + 6) 0, buf.getD (i + 7) 0] := by
  unfold u64be readU64
  rw [show (2 : Nat) ^ 56 = 72057594037927936 by norm_num,
    show (2 : Nat) ^ 48 = 281474976710656 by norm_num,
    show (2 : Nat) ^ 40 = 1099511627776 by norm_num,
    show (2 : Nat) ^ 32 = 4294967296 by norm_num,
    show (2 : Nat) ^ 24 = 16777216 by norm_num,
    show (2 : Nat) ^ 16 = 65536 by norm_num,
    show (2 : Nat) ^ 8 = 256 by norm_num]
  simp only [List.cons.injEq, and_true]
  refine ⟨by omega, by omega, by omega, by omega, by omega, by omega, by omega, by omega⟩

theorem drop_take_append (buf : List Nat) (i k j : Nat) (hj : i + k = j) :
    (buf.drop i).take k ++ buf.drop j = buf.drop i := by
  subst hj
  have h := List.take_append_drop k (buf.drop i)
  rw [List.drop_drop] at h
  exact h

theorem buf64_decomp (buf : List Nat) (h : buf.length = 64) :
    buf = (buf.drop 0).take 1 ++ ((buf.drop 1).take 24 ++ ((buf.drop 25).take 2 ++
      ((buf.drop 27).take 2 ++ ((buf.drop 29).take 2 ++ ((buf.drop 31).take 2 ++
      ((buf.drop 33).take 1 ++ ((buf.drop 34).take 15 ++ ((buf.drop 49).take 7 ++
      (buf.drop 56).take 8)))))))) := by
  have h8 : (buf.drop 56).take 8 = buf.drop 56 :=
    List.take_of_length_le (by simp [h])
  rw [h8, drop_take_append buf 49 7 56 rfl, drop_take_append buf 34 15 49 rfl,
    drop_take_append buf 33 1 34 rfl, drop_take_append buf 31 2 33 rfl,
    drop_take_append buf 29 2 31 rfl, drop_take_append buf 27 2 29 rfl,
    drop_take_append buf 25 2 27 rfl, drop_take_append buf 1 24 25 rfl,
    drop_take_append buf 0 1 1 rfl, List.drop_zero]

/-- C10: for every 64-byte buffer of genuine bytes in canonical form —
first byte 1 and, in each of the three text slots, every byte after the
first zero also zero — re-encoding the decoded record reproduces the
buffer exactly: `encode (decode b) = b`, byte for byte. -/
theorem c10_encode_decode (buf : List Nat) (hlen : buf.length = 64)
    (hb : ∀ b ∈ buf, b < 256) (h1 : buf.getD 0 0 = 1)
    (hp : canonicalSlot ((buf.drop 1).take 24))
    (hm : canonicalSlot ((buf.drop 34).take 15))
    (hc : canonicalSlot ((buf.drop 49).take 7)) :
    ∃ r, prodVersionDecodeBytes buf = some r ∧ prodVersionEncodeCore r = buf := by
  have hby : ∀ k, k < 64 → buf.getD k 0 < 256 := by
    intro k hk
    refine hb _ ?_
    rw [List.getD_eq_getElem _ _ (by omega)]
    exact List.getElem_mem _
  have s0 : (buf.drop 0).take 1 = [buf.getD 0 0] := by
    rw [drop_take_eq_map buf 0 1 (by omega)]
    rfl
  have s25 : (buf.drop 25).take 2 = [buf.getD 25 0, buf.getD 26 0] := by
    rw [drop_take_eq_map buf 25 2 (by omega)]
    rfl
  have s27 : (buf.drop 27).take 2 = [buf.getD 27 0, buf.getD 28 0] := by
    rw [drop_take_eq_map buf 27 2 (by omega)]
    rfl
  have s29 : (buf.drop 29).take 2 = [buf.getD 29 0, buf.getD 30 0] := by
    rw [drop_take_eq_map buf 29 2 (by omega)]
    rfl
  have s31 : (buf.drop 31).take 2 = [buf.getD 31 0, buf.getD 32 0] := by
    rw [drop_take_eq_map buf 31 2 (by omega)]
    rfl
  have s33 : (buf.drop 33).take 1 = [buf.getD 33 0] := by
    rw [drop_take_eq_map buf 33 1 (by omega)]
    rfl
  have s56 : (buf.drop 56).take 8 =
      [buf.getD 56 0, buf.getD 57 0, buf.getD 58 0, buf.getD 59 0,
       buf.getD 60 0, buf.getD 61 0, buf.getD 62 0, buf.getD 63 0] := by
    rw [drop_take_eq_map buf 56 8 (by omega)]
    rfl
  have e00 : (buf.drop 0).take 1 = [1] := by
    rw [s0, h1]
  have e25 : u16be (readU16 buf 25) = (buf.drop 25).take 2 := by
    rw [u16be_readU16 buf 25 (hby 25 (by omega)) (hby 26 (by omega))]
    exact s25.symm
  have e27 : u16be (readU16 buf 27) = (buf.drop 27).take 2 := by
    rw [u16be_readU16 buf 27 (hby 27 (by omega)) (hby 28 (by omega))]
    exact s27.symm
  have e29 : u16be (readU16 buf 29) = (buf.drop 29).take 2 := by
    rw [u16be_readU16 buf 29 (hby 29 (by omega)) (hby 30 (by omega))]
    exact s29.symm
  have e31 : u16be (readU16 buf 31) = (buf.drop 31).take 2 := by
    rw [u16be_readU16 buf 31 (hby 31 (by omega)) (hby 32 (by omega))]
    exact s31.symm
  have e33 : [buf.getD 33 0 % 256] = (buf.drop 33).take 1 := by
    rw [Nat.mod_eq_of_lt (hby 33 (by omega))]
    exact s33.symm
  have e56 : u64be (readU64 buf 56) = (buf.drop 56).take 8 := by
    rw [u64be_readU64 buf 56 (hby 56 (by omega)) (hby 57 (by omega))
      (hby 58 (by omega)) (hby 59 (by omega)) (hby 60 (by omega))
      (hby 61 (by omega)) (hby 62 (by omega)) (hby 63 (by omega))]
    exact s56.symm
  refine
    ⟨{ product := ((buf.drop 1).take 24).takeWhile (fun b => b ≠ 0)
       major := readU16 buf 25
       minor := readU16 buf 27
       patch := readU16 buf 29
       build := readU16 buf 31
       releaseChannel := buf.getD 33 0
       metadata := ((buf.drop 34).take 15).takeWhile (fun b => b ≠ 0)
       commitHash := ((buf.drop 49).take 7).takeWhile (fun b => b ≠ 0)
       date := readU64 buf 56 }, ?_, ?_⟩
  · unfold prodVersionDecodeBytes
    rw [hlen, if_neg (by decide)]
    rw [if_neg (by rw [h1]; decide)]
    rfl
  · show [PRODVER_STRUCTVER]
        ++ textSlot PRODVER_PRODUCT_LEN (((buf.drop 1).take 24).takeWhile (fun b => b ≠ 0))
        ++ u16be (readU16 buf 25) ++ u16be (readU16 buf 27)
        ++ u16be (readU16 buf 29) ++ u16be (readU16 buf 31)
        ++ [buf.getD 33 0 % 256]
        ++ textSlot PRODVER_METADATA_LEN (((buf.drop 34).take 15).takeWhile (fun b => b ≠ 0))
        ++ textSlot PRODVER_COMMIT_LEN (((buf.drop 49).take 7).takeWhile (fun b => b ≠ 0))
        ++ u64be (readU64 buf 56) = buf
    unfold PRODVER_STRUCTVER PRODVER_PRODUCT_LEN PRODVER_METADATA_LEN PRODVER_COMMIT_LEN
    rw [textSlot_of_canonical (by simp [hlen]) hp,
      textSlot_of_canonical (by simp [hlen]) hm,
      textSlot_of_canonical (by simp [hlen]) hc,
      e25, e27, e29, e31, e33, e56, ← e00]
    simp only [List.append_assoc]
    exact (buf64_decomp buf hlen).symm

theorem c10_encode_decode_witness :
    ∃ r, prodVersionDecodeBytes chanBuf = some r ∧
      prodVersionEncodeCore r = chanBuf :=
  c10_encode_decode chanBuf (by decide) (by decide) (by decide) (by decide)
    (by decide) (by decide)

end ProdVer
